import Mathlib

/-!
# RustyBoot: a shallow embedding of the boot pipeline core

This file embeds the core components of the RustyBoot second-stage boot
loader (MBR partition parsing, the bump memory manager, the ATA sector
reader, the ext2 filesystem reader, and the ELF segment loader) as
executable Lean definitions, and proves the testable properties stated in
the specification against them.

Bytes are modelled as `Nat` values (< 256 on real inputs); machine-word
arithmetic that can overflow is made explicit with `% 2^32` (the target is
32-bit x86, so `usize` is 32 bits).  Byte buffers are `List Nat` or
functions `Nat → Nat`; fallible Rust functions returning `Result` become
`Except String`.
-/

set_option maxRecDepth 8000

namespace RustyBoot

/-- Little-endian 16-bit read over a byte function (mirrors
`u16::from_le_bytes([f o, f (o+1)])`). -/
def le16f (f : Nat → Nat) (o : Nat) : Nat :=
  f o + 256 * f (o + 1)

/-- Little-endian 32-bit read over a byte function (mirrors
`u32::from_le_bytes([f o, .., f (o+3)])`). -/
def le32f (f : Nat → Nat) (o : Nat) : Nat :=
  f o + 256 * f (o + 1) + 65536 * f (o + 2) + 16777216 * f (o + 3)

/-- Byte `i` of a `List Nat` buffer (out-of-range reads give 0; all modelled
reads are in range on the paths the theorems cover). -/
def byteAt (d : List Nat) (i : Nat) : Nat := d.getD i 0

/-- Little-endian 16-bit read from a list buffer. -/
def le16 (d : List Nat) (o : Nat) : Nat := le16f (byteAt d) o

/-- Little-endian 32-bit read from a list buffer. -/
def le32 (d : List Nat) (o : Nat) : Nat := le32f (byteAt d) o

/-- Decidable equality of `Except` results (used to evaluate the embedded
functions at concrete inputs). -/
instance exceptDecidableEq {e a : Type} [DecidableEq e] [DecidableEq a] :
    DecidableEq (Except e a) := fun x y =>
  match x, y with
  | .ok v, .ok w =>
      if h : v = w then .isTrue (by rw [h])
      else .isFalse (by intro hc; cases hc; exact h rfl)
  | .error v, .error w =>
      if h : v = w then .isTrue (by rw [h])
      else .isFalse (by intro hc; cases hc; exact h rfl)
  | .ok _, .error _ => .isFalse (by intro hc; cases hc)
  | .error _, .ok _ => .isFalse (by intro hc; cases hc)

/-! ## MBR partition table (src/boot/mbr.rs) -/

namespace mbr

/-- `PARTITION_TABLE_OFFSET` in `src/boot/mbr.rs`. -/
def PARTITION_TABLE_OFFSET : Nat := 446

/-- `PARTITION_ENTRY_COUNT` in `src/boot/mbr.rs`. -/
def PARTITION_ENTRY_COUNT : Nat := 4

/-- `PartitionEntry` from `src/boot/mbr.rs`. -/
structure PartitionEntry where
  bootable : Bool
  partition_type : Nat
  starting_lba : Nat
  sectors : Nat
deriving Repr, DecidableEq

/-- `MbrInfo` from `src/boot/mbr.rs`; the four slots are kept as a list of
length 4. -/
structure MbrInfo where
  signature_valid : Bool
  partitions : List (Option PartitionEntry)
deriving Repr, DecidableEq

/-- One iteration of the parse loop of `parse_partitions`: decode the 16-byte
entry at offset `446 + i*16`; an entry with zero type code or zero sector
count stays `none`.  The Rust loop `break`s when the entry does not fit in
the buffer; since offsets are monotone in `i`, a per-index bounds check is
equivalent. -/
def parseEntry (mbrSec : List Nat) (i : Nat) : Option PartitionEntry :=
  let o := PARTITION_TABLE_OFFSET + i * 16
  if o + 16 > mbrSec.length then none
  else
    let boot_indicator := byteAt mbrSec o
    let partition_type := byteAt mbrSec (o + 4)
    let starting_lba := le32 mbrSec (o + 8)
    let sectors := le32 mbrSec (o + 12)
    if partition_type ≠ 0 ∧ sectors ≠ 0 then
      some { bootable := boot_indicator = 0x80
             partition_type := partition_type
             starting_lba := starting_lba
             sectors := sectors }
    else none

/-- `parse_partitions` from `src/boot/mbr.rs`: the four fixed-offset entries
of the 512-byte sector. -/
def parse_partitions (mbrSec : List Nat) : List (Option PartitionEntry) :=
  [parseEntry mbrSec 0, parseEntry mbrSec 1, parseEntry mbrSec 2, parseEntry mbrSec 3]

/-- The scan loop of `find_active_partition`, with the running index made
explicit. -/
def findActiveAux : List (Option PartitionEntry) → Nat → Option (Nat × PartitionEntry)
  | [], _ => none
  | none :: rest, idx => findActiveAux rest (idx + 1)
  | some pe :: rest, idx =>
      if pe.bootable then some (idx, pe) else findActiveAux rest (idx + 1)

/-- `find_active_partition` from `src/boot/mbr.rs`: first bootable entry with
its index. -/
def find_active_partition (info : MbrInfo) : Option (Nat × PartitionEntry) :=
  findActiveAux info.partitions 0

end mbr

/-! ## Memory manager (src/memory/manager.rs) -/

namespace memory

/-- `MemoryRegionType` from `src/memory/manager.rs`. -/
inductive MemoryRegionType where
  | Available
  | Reserved
  | AcpiReclaim
  | AcpiNvs
  | BadMemory
  | Bootloader
  | Kernel
deriving Repr, DecidableEq

/-- `MemoryRegion` from `src/memory/manager.rs`. -/
structure MemoryRegion where
  start : Nat
  size : Nat
  region_type : MemoryRegionType
deriving Repr, DecidableEq

/-- `MemoryManager` from `src/memory/manager.rs`; the fixed 32-slot region
array with its occupancy counter is modelled by a list of at most 32
regions. -/
structure MemoryManager where
  regions : List MemoryRegion
  heap_start : Nat
  heap_current : Nat
  heap_end : Nat
  allocated_bytes : Nat
deriving Repr, DecidableEq

/-- `MEMORY_START` from `src/memory/manager.rs`. -/
def MEMORY_START : Nat := 0x100000

/-- `MEMORY_END` from `src/memory/manager.rs`. -/
def MEMORY_END : Nat := 0x800000

/-- `MAX_REGIONS` from `src/memory/manager.rs`. -/
def MAX_REGIONS : Nat := 32

/-- `MemoryManager::add_region`: append if fewer than 32 regions are
recorded, silently drop otherwise. -/
def add_region (s : MemoryManager) (r : MemoryRegion) : MemoryManager :=
  if s.regions.length < MAX_REGIONS then
    { s with regions := s.regions ++ [r] }
  else s

/-- `MemoryManager::new` including `detect_memory`. -/
def mmNew : MemoryManager :=
  let s : MemoryManager :=
    { regions := []
      heap_start := MEMORY_START
      heap_current := MEMORY_START
      heap_end := MEMORY_END
      allocated_bytes := 0 }
  let s := add_region s ⟨MEMORY_START, MEMORY_END - MEMORY_START, .Available⟩
  add_region s ⟨0x7C00, 0x98400, .Bootloader⟩

/-- The 8-byte rounding `(size + 7) & !7` of `MemoryManager::allocate`.
`usize` is 32 bits on the i386 target and the release-profile addition
wraps, so `size + 7` is truncated mod 2^32 before the mask clears the low
three bits (clearing them is subtracting the value mod 8). -/
def alignedSize (size : Nat) : Nat :=
  (size + 7) % 2 ^ 32 - (size + 7) % 2 ^ 32 % 8

/-- `MemoryManager::allocate`: bump allocation, returning the start address
of the allocated range together with the updated manager (the zero-fill of
the returned bytes has no observable effect in this model).  The 32-bit
`usize` additions of the bounds check and of the pointer/counter updates
wrap mod 2^32, as in the release-profile source. -/
def allocate (s : MemoryManager) (size : Nat) : Option (Nat × MemoryManager) :=
  if size = 0 then none
  else
    let aligned := alignedSize size
    if (s.heap_current + aligned) % 2 ^ 32 > s.heap_end then none
    else
      some (s.heap_current,
        { s with
          heap_current := (s.heap_current + aligned) % 2 ^ 32
          allocated_bytes := (s.allocated_bytes + aligned) % 2 ^ 32 })

/-- A sequence of `allocate` calls; returns the list of returned ranges
`(ptr, aligned size)` and the final state, or `none` if any call fails. -/
def allocSeq (s : MemoryManager) : List Nat → Option (List (Nat × Nat) × MemoryManager)
  | [] => some ([], s)
  | sz :: rest =>
      match allocate s sz with
      | none => none
      | some (p, s1) =>
        match allocSeq s1 rest with
        | none => none
        | some (l, s2) => some ((p, alignedSize sz) :: l, s2)

/-- `MemoryManager::reserve_region`.  The Rust method mutates `&mut self`
and returns a `Result`; the embedding returns the result together with the
state after the call (unchanged on the error path, which in the source
returns before any mutation).  The `start + size` of the overlap test is a
32-bit `usize` addition and wraps mod 2^32, as in the release-profile
source. -/
def reserve_region (s : MemoryManager) (start size : Nat) :
    Except String Unit × MemoryManager :=
  if start < s.heap_current ∧ (start + size) % 2 ^ 32 > s.heap_start then
    (.error "Cannot reserve region that conflicts with allocated memory", s)
  else
    let s1 :=
      if start ≥ s.heap_current ∧ start < s.heap_end then
        { s with heap_end := start }
      else s
    (.ok (), add_region s1 ⟨start, size, .Reserved⟩)

end memory

/-! ## ATA disk driver (src/drivers/disk.rs)

The device is abstracted as a total function `disk : Nat → Nat → Nat`
giving byte `j` of the 512-byte sector at LBA `i` (the data the PIO word
transfers deliver).  Polling, status registers and the hardware error paths
are not modelled: a theorem about `read_sectors` covers the runs on which
the device delivers data, which is what the claim about chunking and buffer
filling is about.  The issued device commands are made observable as a list
of `(starting lba, sector count)` pairs. -/

namespace disk

/-- Overwrite `len` bytes of `buf` starting at `off` with `f 0, f 1, ...`
(the functional form of the word-by-word `buffer[off] = ...` writes of the
transfer loop); bytes outside the window keep their value, and the length
is unchanged. -/
def writeRange (buf : List Nat) (off len : Nat) (f : Nat → Nat) : List Nat :=
  (List.range buf.length).map
    (fun i => if off ≤ i ∧ i < off + len then f (i - off) else buf.getD i 0)

/-- The chunking loop of `read_sectors`: while sectors remain, issue one
command of `min count 255` sectors, transfer `chunk * 512` bytes into the
buffer at the running offset, then advance the LBA (32-bit wrapping add, as
in `lba.wrapping_add`) and the offset. -/
def readLoop (dsk : Nat → Nat → Nat) : Nat → Nat → Nat → List Nat →
    List Nat × List (Nat × Nat)
  | lba, count, off, buf =>
    if h : count = 0 then (buf, [])
    else
      let chunk := min count 255
      let buf2 := writeRange buf off (chunk * 512)
        (fun j => dsk (lba + j / 512) (j % 512))
      let rest := readLoop dsk ((lba + chunk) % 2 ^ 32) (count - chunk)
        (off + chunk * 512) buf2
      (rest.1, (lba, chunk) :: rest.2)
  termination_by _ count _ _ => count
  decreasing_by omega

/-- `read_sectors` from `src/drivers/disk.rs`: a zero count reads nothing; a
buffer smaller than `count * 512` bytes is rejected; otherwise the chunk
loop runs.  The result carries the final buffer and the list of issued
commands. -/
def read_sectors (lba count : Nat) (buf : List Nat) (dsk : Nat → Nat → Nat) :
    Except String (List Nat × List (Nat × Nat)) :=
  if count = 0 then .ok (buf, [])
  else if buf.length < count * 512 then .error "buffer too small for read_sectors"
  else .ok (readLoop dsk lba count 0 buf)

/-- The canonical chunk decomposition `(lba, min count 255), ...` that the
loop is proved to issue. -/
def chunks : Nat → Nat → List (Nat × Nat)
  | lba, count =>
    if h : count = 0 then []
    else
      let c := min count 255
      (lba, c) :: chunks ((lba + c) % 2 ^ 32) (count - c)
  termination_by _ count => count
  decreasing_by omega

end disk

/-! ## ELF loader (src/kernel/loader.rs)

Physical memory is a byte function `Nat → Nat`; `memcpy` / `memset` on
segment load become pointwise updates of that function. -/

namespace loader

/-- The body of the `ph_type == 1` branch of `parse_and_load_elf`: decode
the PT_LOAD header at `phBase`, copy `file_size` image bytes to the
header's declared virtual address and zero the tail up to `mem_size`;
a segment whose file data does not fit the image is skipped. -/
def loadSegment (data : List Nat) (phBase : Nat) (mem : Nat → Nat) : Nat → Nat :=
  let file_offset := le32 data (phBase + 4)
  let virt_addr := le32 data (phBase + 8)
  let file_size := le32 data (phBase + 16)
  let mem_size := le32 data (phBase + 20)
  if file_offset + file_size ≤ data.length then
    fun a =>
      if virt_addr ≤ a ∧ a < virt_addr + file_size then
        byteAt data (file_offset + (a - virt_addr))
      else if mem_size > file_size ∧ virt_addr + file_size ≤ a ∧ a < virt_addr + mem_size then
        0
      else mem a
  else mem

/-- The program-header loop of `parse_and_load_elf`: iterate `i` over
`count` headers starting at index `i0`; a header that does not fit in the
image, or whose type is not PT_LOAD (1), leaves memory unchanged. -/
def elfLoop (data : List Nat) (phOff phSize : Nat) :
    Nat → Nat → (Nat → Nat) → Nat → Nat
  | _, 0, mem => mem
  | i0, count + 1, mem =>
      let phBase := phOff + i0 * phSize
      let mem1 :=
        if phBase + 32 > data.length then mem
        else if le32 data phBase = 1 then loadSegment data phBase mem
        else mem
      elfLoop data phOff phSize (i0 + 1) count mem1

/-- `parse_and_load_elf` from `src/kernel/loader.rs` (the `load_addr`
parameter is unused by the source function as well): validate the ELF
identification bytes, then run the program-header loop; returns the entry
point and the memory after all segment loads. -/
def parse_and_load_elf (data : List Nat) (loadAddr : Nat) (mem : Nat → Nat) :
    Except String (Nat × (Nat → Nat)) :=
  let _ := loadAddr
  if data.length < 52 then .error "Invalid ELF file"
  else if ¬(byteAt data 0 = 0x7F ∧ byteAt data 1 = 0x45 ∧
            byteAt data 2 = 0x4C ∧ byteAt data 3 = 0x46) then
    .error "Not an ELF file"
  else if byteAt data 4 ≠ 1 then .error "Only 32-bit ELF supported"
  else if byteAt data 5 ≠ 1 then .error "Only little-endian ELF supported"
  else
    let entry_point := le32 data 24
    let ph_offset := le32 data 28
    let ph_size := le16 data 42
    let ph_count := le16 data 44
    .ok (entry_point, elfLoop data ph_offset ph_size 0 ph_count mem)

/-- Byte `a` of the memory produced by a successful load, `none` on a
failed load. -/
def memAfter (r : Except String (Nat × (Nat → Nat))) (a : Nat) : Option Nat :=
  match r with
  | .ok (_, m) => some (m a)
  | .error _ => none

end loader

/-! ## ext2 filesystem reader (src/fs/ext.rs)

The block device below the filesystem is abstracted at block granularity:
`disk : Nat → Nat → Nat` gives byte `off` of block `b` (the bytes that
`read_block` would place in its scratch buffer).  The scratch buffers in
the source are zero-initialized 4096-byte arrays of which `read_block`
fills the first `block_size` bytes, so a read past `block_size` sees 0. -/

namespace ext

/-- The consumed fields of `Ext2Superblock` from `src/fs/ext.rs` (the
remaining on-disk fields are read into the struct but never used by the
reader). -/
structure Ext2Superblock where
  inodes_count : Nat
  blocks_count : Nat
  first_data_block : Nat
  log_block_size : Nat
  blocks_per_group : Nat
  inodes_per_group : Nat
  magic : Nat
  rev_level : Nat
  inode_size : Nat
  feature_incompat : Nat
deriving Repr, DecidableEq

/-- The process-wide state installed by a successful `init_with_lba`
(`SUPERBLOCK`, `BLOCK_SIZE`, `SECTORS_PER_BLOCK`, `PARTITION_LBA_BASE`). -/
structure FsState where
  partition_lba_base : Nat
  superblock : Ext2Superblock
  block_size : Nat
  sectors_per_block : Nat
deriving Repr, DecidableEq

/-- `init_with_lba` from `src/fs/ext.rs`, given the superblock record read
from byte offset 1024 of the partition: validate the magic, reject the
extents/64-bit incompat feature bits, compute the block size as
`1024usize.checked_shl(log_block_size)` (usize is 32-bit on the i386
target, so the shift amount is rejected at ≥ 32 and the shifted value is
truncated mod 2^32) and bound-check it.  Success installs the cached
state; every error path leaves nothing installed. -/
def init_with_lba (lba_base : Nat) (sb : Ext2Superblock) : Except String FsState :=
  if sb.magic ≠ 0xEF53 then .error "Not an EXT filesystem"
  else if sb.feature_incompat &&& 0x40 ≠ 0 ∨ sb.feature_incompat &&& 0x80 ≠ 0 then
    .error "EXT filesystem uses unsupported features (extents/64bit)"
  else if sb.log_block_size ≥ 32 then .error "bad log_block_size"
  else
    let block_size := (1024 <<< sb.log_block_size) % 2 ^ 32
    if block_size = 0 then .error "invalid block size"
    else if block_size > 4096 then .error "Unsupported EXT block size (>4096)"
    else if block_size % 512 ≠ 0 then
      .error "Unsupported EXT block size (not multiple of 512)"
    else
      .ok { partition_lba_base := lba_base
            superblock := sb
            block_size := block_size
            sectors_per_block := block_size / 512 }

/-- The filesystem context used by the readers: the cached superblock and
block size plus the block-granular view of the device. -/
structure FsCtx where
  superblock : Ext2Superblock
  block_size : Nat
  disk : Nat → Nat → Nat

/-- Byte `off` of the scratch buffer after `read_block b`: device data for
the first `block_size` bytes, the zero-initialized remainder beyond. -/
def blockByte (ctx : FsCtx) (b off : Nat) : Nat :=
  if off < ctx.block_size then ctx.disk b off else 0

/-- The consumed fields of `Ext2Inode` from `src/fs/ext.rs`: mode, size and
the 15 block pointers (12 direct, single-, double-, triple-indirect). -/
structure Ext2Inode where
  mode : Nat
  size : Nat
  block : List Nat
deriving Repr, DecidableEq

/-- `EXT2_S_IFREG` from `src/fs/ext.rs`. -/
def EXT2_S_IFREG : Nat := 0x8000

/-- `EXT2_S_IFDIR` from `src/fs/ext.rs`. -/
def EXT2_S_IFDIR : Nat := 0x4000

/-- `MAX_FILE_SIZE` from `src/fs/ext.rs` (1 MiB). -/
def MAX_FILE_SIZE : Nat := 1024 * 1024

/-- `FileBuffer` from `src/fs/ext.rs`: the fixed 1 MiB data area (as a byte
function, zero-initialized by `FileBuffer::new`) plus the logical size. -/
structure FileBuffer where
  data : Nat → Nat
  size : Nat

/-- `get_inode` from `src/fs/ext.rs`: locate the block group descriptor of
the inode's group right after the superblock's block, read the descriptor's
inode-table pointer (at byte offset 8 of the 32-byte descriptor record),
then read the inode record (128 bytes, or the superblock-declared size if
revision ≥ 1 declares a sane one) out of the inode table.  The mode is the
little-endian u16 at offset 0 of the record, the size the u32 at offset 4,
and the 15 block pointers the u32s from offset 40.  (The `u32` divisions by
`inodes_per_group` panic in Rust when that field is zero; the theorems only
cover contexts with a positive `inodes_per_group`.) -/
def get_inode (ctx : FsCtx) (inode_num : Nat) : Except String Ext2Inode :=
  if inode_num = 0 then .error "invalid inode 0"
  else
    let sb := ctx.superblock
    let group := (inode_num - 1) / sb.inodes_per_group
    let local_inode := (inode_num - 1) % sb.inodes_per_group
    let gdt_start := sb.first_data_block + 1
    let d_per_blk := ctx.block_size / 32
    if d_per_blk = 0 then .error "invalid descriptors_per_block"
    else
      let gdt_block := gdt_start + group / d_per_blk
      let index_in_block := (group % d_per_blk) * 32
      if index_in_block + 32 > ctx.block_size then .error "BGD index out of range"
      else
        let inode_table := le32f (blockByte ctx gdt_block) (index_in_block + 8)
        let inode_size :=
          if sb.rev_level ≥ 1 ∧ 128 ≤ sb.inode_size ∧ sb.inode_size ≤ ctx.block_size ∧
              sb.inode_size % 4 = 0 then
            sb.inode_size
          else 128
        let inodes_per_block := ctx.block_size / inode_size
        if inodes_per_block = 0 then .error "invalid inodes_per_block"
        else
          let inode_block := inode_table + local_inode / inodes_per_block
          let inode_offset := (local_inode % inodes_per_block) * inode_size
          if inode_offset + inode_size > ctx.block_size then
            .error "inode offset out of range"
          else
            let f := blockByte ctx inode_block
            .ok { mode := le16f f inode_offset
                  size := le32f f (inode_offset + 4)
                  block := (List.range 15).map
                    (fun k => le32f f (inode_offset + 40 + 4 * k)) }

/-- The entry-scan loop over one directory data block, starting at byte
offset `off`: stop on a terminating entry (inode 0 or record length 0) or a
corrupt one (record length below 8 or crossing the block boundary); return
the entry's inode number when the bounds are sane and the name bytes equal
the searched component.  (The source compares via `core::str::from_utf8`;
for a component that is valid UTF-8 — always true of a Rust `&str` path —
that comparison succeeds exactly when the name bytes are equal.) -/
def scanEntries (ctx : FsCtx) (b : Nat) (fname : List Nat) (off : Nat) : Option Nat :=
  if h : off + 8 ≤ ctx.block_size then
    if le32f (blockByte ctx b) off = 0 ∨ le16f (blockByte ctx b) (off + 4) = 0 then none
    else if h2 : le16f (blockByte ctx b) (off + 4) < 8 ∨
        off + le16f (blockByte ctx b) (off + 4) > ctx.block_size then none
    else
      if 8 + blockByte ctx b (off + 6) ≤ le16f (blockByte ctx b) (off + 4) ∧
          off + (8 + blockByte ctx b (off + 6)) ≤ ctx.block_size ∧
          (List.range (blockByte ctx b (off + 6))).map
            (fun k => blockByte ctx b (off + 8 + k)) = fname then
        some (le32f (blockByte ctx b) off)
      else scanEntries ctx b fname (off + le16f (blockByte ctx b) (off + 4))
  else none
  termination_by ctx.block_size - off
  decreasing_by simp_wf; omega

/-- The direct-block scan of `find_file_in_directory`: a zero pointer skips
to the next direct slot (`continue`). -/
def scanDirect (ctx : FsCtx) (fname : List Nat) : List Nat → Option Nat
  | [] => none
  | b :: rest =>
      if b = 0 then scanDirect ctx fname rest
      else
        match scanEntries ctx b fname 0 with
        | some i => some i
        | none => scanDirect ctx fname rest

/-- The `block_size / 4` little-endian pointers held by indirect block `b`. -/
def ptrList (ctx : FsCtx) (b : Nat) : List Nat :=
  (List.range (ctx.block_size / 4)).map (fun k => le32f (blockByte ctx b) (4 * k))

/-- The single-indirect scan of `find_file_in_directory`: a zero pointer
terminates the whole chain (`break`). -/
def scanIndirect (ctx : FsCtx) (fname : List Nat) : List Nat → Option Nat
  | [] => none
  | p :: rest =>
      if p = 0 then none
      else
        match scanEntries ctx p fname 0 with
        | some i => some i
        | none => scanIndirect ctx fname rest

/-- `find_file_in_directory` from `src/fs/ext.rs`: scan the directory's 12
direct blocks, then — when the single-indirect pointer is set — the blocks
it points to. -/
def find_file_in_directory (ctx : FsCtx) (dir : Ext2Inode) (fname : List Nat) :
    Except String Nat :=
  match scanDirect ctx fname (dir.block.take 12) with
  | some i => .ok i
  | none =>
    if dir.block.getD 12 0 ≠ 0 then
      match scanIndirect ctx fname (ptrList ctx (dir.block.getD 12 0)) with
      | some i => .ok i
      | none => .error "File not found"
    else .error "File not found"

/-- One data-block copy of `read_inode_data`: `to_copy = min block_size
(file_size - bytes_read)` bytes of block `b` go to the file buffer at
`bytes_read`, which then advances by `to_copy`. -/
def copyBlock (ctx : FsCtx) (fileSize b : Nat) (buf : Nat → Nat) (br : Nat) :
    (Nat → Nat) × Nat :=
  let toCopy := min ctx.block_size (fileSize - br)
  (fun a => if br ≤ a ∧ a < br + toCopy then blockByte ctx b (a - br) else buf a,
   br + toCopy)

/-- The block-walk loop shared by the direct, single-indirect and inner
double-indirect loops of `read_inode_data`: stop on a zero pointer or once
`file_size` bytes are read, otherwise copy the block and continue.  (The
direct `for` loop breaks on `block_num == 0 || bytes_read >= file_size`;
the indirect `while` loops test `bytes_read < file_size` in the loop head
and break on a zero pointer — per step, both stop under exactly the same
condition.) -/
def fillFromBlocks (ctx : FsCtx) (fileSize : Nat) :
    List Nat → (Nat → Nat) → Nat → (Nat → Nat) × Nat
  | [], buf, br => (buf, br)
  | b :: rest, buf, br =>
      if b = 0 ∨ br ≥ fileSize then (buf, br)
      else
        let s := copyBlock ctx fileSize b buf br
        fillFromBlocks ctx fileSize rest s.1 s.2

/-- The outer double-indirect loop of `read_inode_data`: each nonzero
pointer names a single-indirect block whose pointers are walked by
`fillFromBlocks`. -/
def doubleLoop (ctx : FsCtx) (fileSize : Nat) :
    List Nat → (Nat → Nat) → Nat → (Nat → Nat) × Nat
  | [], buf, br => (buf, br)
  | p1 :: rest, buf, br =>
      if p1 = 0 ∨ br ≥ fileSize then (buf, br)
      else
        let s := fillFromBlocks ctx fileSize (ptrList ctx p1) buf br
        doubleLoop ctx fileSize rest s.1 s.2

/-- The data-gathering part of `read_inode_data`: direct blocks, then the
single-indirect chain when `block[12]` is set and bytes remain, then the
double-indirect chain when `block[13]` is set and bytes remain.  The result
is the file buffer contents and `bytes_read`.  (The source's early `return
Ok` when the direct blocks already supplied `file_size` bytes is equivalent
to falling through: both later loops are no-ops once
`bytes_read ≥ file_size`.) -/
def read_inode_run (ctx : FsCtx) (inode : Ext2Inode) : (Nat → Nat) × Nat :=
  let fileSize := inode.size
  let s1 := fillFromBlocks ctx fileSize (inode.block.take 12) (fun _ => 0) 0
  let s2 :=
    if s1.2 < fileSize ∧ inode.block.getD 12 0 ≠ 0 then
      fillFromBlocks ctx fileSize (ptrList ctx (inode.block.getD 12 0)) s1.1 s1.2
    else s1
  if s2.2 < fileSize ∧ inode.block.getD 13 0 ≠ 0 then
    doubleLoop ctx fileSize (ptrList ctx (inode.block.getD 13 0)) s2.1 s2.2
  else s2

/-- The number of file bytes the inode's direct, single- and
double-indirect chains actually supply to `read_inode_data`. -/
def suppliedBytes (ctx : FsCtx) (inode : Ext2Inode) : Nat :=
  (read_inode_run ctx inode).2

/-- `read_inode_data` from `src/fs/ext.rs`: reject declared sizes over the
1 MiB cap, run the chain walk, and reject the read as unsupported
(triple-indirect territory) when the chains supplied fewer than
`file_size` bytes; otherwise the buffer's logical size is the bytes
read. -/
def read_inode_data (ctx : FsCtx) (inode : Ext2Inode) : Except String FileBuffer :=
  if inode.size > MAX_FILE_SIZE then .error "File too large"
  else
    let s := read_inode_run ctx inode
    if s.2 < inode.size then
      .error "Large files not fully supported (needs triple indirect)"
    else .ok ⟨s.1, s.2⟩

/-- The path-walk loop of `read_file`, over the byte list of the path:
`i` scans for separators, `start` marks the current component, `cur` is
`current_inode_num`.  At each component boundary the current inode is
fetched; when further components follow it must carry the directory mode
bit; the component is then looked up in it.  (The source's UTF-8 re-check
of the component cannot fail: the component is a slice of a valid UTF-8
`&str` cut at ASCII separators.) -/
def resolveLoop (ctx : FsCtx) (bytes : List Nat) :
    Nat → Nat → Nat → Except String Nat
  | i, start, cur =>
    if h : i ≤ bytes.length then
      if i = bytes.length ∨ bytes.getD i 0 = 47 then
        if i > start then
          match get_inode ctx cur with
          | .error e => .error e
          | .ok inode =>
            if i < bytes.length ∧ inode.mode &&& EXT2_S_IFDIR = 0 then
              .error "Not a directory"
            else
              match find_file_in_directory ctx inode ((bytes.drop start).take (i - start)) with
              | .error e => .error e
              | .ok nxt => resolveLoop ctx bytes (i + 1) (i + 1) nxt
        else resolveLoop ctx bytes (i + 1) (i + 1) cur
      else resolveLoop ctx bytes (i + 1) start cur
    else .ok cur
  termination_by i _ _ => bytes.length + 1 - i
  decreasing_by all_goals omega

/-- The path-resolution part of `read_file`: an absolute, slash-led path is
walked from the root inode 2; the result is the inode number of the final
component. -/
def resolve_path (ctx : FsCtx) (path : List Nat) : Except String Nat :=
  match path with
  | 47 :: _ => resolveLoop ctx path 1 1 2
  | _ => .error "Path must be absolute"

/-- `read_file` from `src/fs/ext.rs`: resolve the path, fetch the final
inode, require the regular-file mode bit, then read its data. -/
def read_file (ctx : FsCtx) (path : List Nat) : Except String FileBuffer :=
  match resolve_path ctx path with
  | .error e => .error e
  | .ok n =>
    match get_inode ctx n with
    | .error e => .error e
    | .ok inode =>
      if inode.mode &&& EXT2_S_IFREG = 0 then .error "Not a regular file"
      else read_inode_data ctx inode

end ext

/-! ## Concrete evaluation inputs

Small concrete inputs used to evaluate the definitions at specific points
(witnesses of the theorems below). -/

/-- An all-zero 512-byte sector: an empty partition table. -/
def zeroSector : List Nat := List.replicate 512 0

/-- A bootable Linux-type partition entry. -/
def demoEntry : mbr.PartitionEntry :=
  { bootable := true, partition_type := 0x83, starting_lba := 2048, sectors := 4096 }

/-- A parsed table with a single bootable entry in slot 1. -/
def demoMbrInfo : mbr.MbrInfo :=
  { signature_valid := true, partitions := [none, some demoEntry, none, none] }

/-- The manager state after `allocate 16` then `allocate 5` on a fresh
manager: the bump pointer has advanced by 16 + 8 bytes. -/
def c5final : memory.MemoryManager :=
  { regions := [⟨0x100000, 0x700000, .Available⟩, ⟨0x7C00, 0x98400, .Bootloader⟩]
    heap_start := 0x100000
    heap_current := 0x100018
    heap_end := 0x800000
    allocated_bytes := 24 }

/-- A manager state with 8 bytes already bump-allocated. -/
def c6state : memory.MemoryManager :=
  { regions := []
    heap_start := 0x100000
    heap_current := 0x100008
    heap_end := 0x800000
    allocated_bytes := 8 }

/-- The manager after `allocate 0xFFFFFF00` on a fresh instance: the
32-bit bounds-check sum wraps to 0xFFF00, the request is accepted, and the
bump pointer lands below `heap_start`. -/
def c5wrapState : memory.MemoryManager :=
  { regions := [⟨0x100000, 0x700000, .Available⟩, ⟨0x7C00, 0x98400, .Bootloader⟩]
    heap_start := 0x100000
    heap_current := 0xFFF00
    heap_end := 0x800000
    allocated_bytes := 0xFFFFFF00 }

/-- A manager state with `[0x100000, 0x300000)` already bump-allocated. -/
def c6wrapState : memory.MemoryManager :=
  { regions := []
    heap_start := 0x100000
    heap_current := 0x300000
    heap_end := 0x800000
    allocated_bytes := 0x200000 }

/-- `c6wrapState` after `reserve_region 0x200000 0xFFE01000`: the 32-bit
sum `start + size` wraps to 0x1000, the overlap check is skipped, and a
Reserved region is catalogued despite the overlap with allocated space. -/
def c6wrapAfter : memory.MemoryManager :=
  { regions := [⟨0x200000, 0xFFE01000, .Reserved⟩]
    heap_start := 0x100000
    heap_current := 0x300000
    heap_end := 0x800000
    allocated_bytes := 0x200000 }

/-- A 512-byte zero read buffer. -/
def c9buf : List Nat := List.replicate 512 0

/-- A concrete device: byte `j` of sector `i` is `(i + j) % 256`. -/
def c9dsk : Nat → Nat → Nat := fun i j => (i + j) % 256

/-- A minimal 184-byte 32-bit little-endian ELF image: one PT_LOAD program
header (at offset 52, table entry size 32, count 1) with file offset 84,
virtual address 0x100000, file size 100, memory size 400, followed by 100
bytes of segment data. -/
def demoElf : List Nat :=
  [0x7F, 0x45, 0x4C, 0x46, 1, 1] ++ List.replicate 18 0 ++
  [0, 0, 16, 0] ++ [52, 0, 0, 0] ++ List.replicate 10 0 ++
  [32, 0] ++ [1, 0] ++ List.replicate 6 0 ++
  [1, 0, 0, 0] ++ [84, 0, 0, 0] ++ [0, 0, 16, 0] ++ [0, 0, 0, 0] ++
  [100, 0, 0, 0] ++ [144, 1, 0, 0] ++ List.replicate 8 0 ++
  (List.range 100).map (fun k => (k + 1) % 256)

/-- A physical memory filled with the byte 0xAB. -/
def demoMem : Nat → Nat := fun _ => 0xAB

/-- A superblock for a small 1024-byte-block filesystem, revision 0, with
16 inodes per group and first data block 1. -/
def dirSb : ext.Ext2Superblock :=
  { inodes_count := 16, blocks_count := 64, first_data_block := 1,
    log_block_size := 0, blocks_per_group := 64, inodes_per_group := 16,
    magic := 0xEF53, rev_level := 0, inode_size := 128, feature_incompat := 0 }

/-- A tiny disk: the group descriptor table (block 2) points the inode
table at block 5, and the root inode (slot 1 of block 5, byte offset 128)
has the directory mode 0x4000 and no data blocks. -/
def dirDisk : Nat → Nat → Nat := fun b off =>
  if b = 2 ∧ off = 8 then 5
  else if b = 5 ∧ off = 129 then 0x40
  else 0

/-- Context over `dirDisk`. -/
def dirCtx : ext.FsCtx :=
  { superblock := dirSb, block_size := 1024, disk := dirDisk }

/-- The root inode of `dirDisk`: a directory with no data. -/
def rootInode : ext.Ext2Inode :=
  { mode := 0x4000, size := 0,
    block := [0, 0, 0, 0, 0, 0, 0, 0, 0, 0, 0, 0, 0, 0, 0] }

/-- An inode declaring 2 MiB (over the 1 MiB cap) with no block pointers. -/
def bigInode : ext.Ext2Inode :=
  { mode := 0x8000, size := 0x200000,
    block := [0, 0, 0, 0, 0, 0, 0, 0, 0, 0, 0, 0, 0, 0, 0] }

/-- An inode declaring 100 bytes (under the cap) whose chains supply no
bytes at all: every pointer is zero. -/
def sparseInode : ext.Ext2Inode :=
  { mode := 0x8000, size := 100,
    block := [0, 0, 0, 0, 0, 0, 0, 0, 0, 0, 0, 0, 0, 0, 0] }

/-- A disk holding one regular file: block 2 is the descriptor table
(inode table at block 5); block 5 holds the root directory inode (slot 1,
directory mode, data block 9) and the file inode 3 (slot 2, regular mode
0x8000, size 5, data block 10); block 9 is the root directory data with
the single entry "a" → inode 3; block 10 is the file content
11, 22, 33, 44, 55. -/
def fileDisk : Nat → Nat → Nat := fun b off =>
  if b = 2 then (if off = 8 then 5 else 0)
  else if b = 5 then
    (if off = 129 then 0x40
     else if off = 168 then 9
     else if off = 257 then 0x80
     else if off = 260 then 5
     else if off = 296 then 10
     else 0)
  else if b = 9 then
    (if off = 0 then 3 else if off = 4 then 12 else if off = 6 then 1
     else if off = 7 then 1 else if off = 8 then 97 else 0)
  else if b = 10 then
    (if off = 0 then 11 else if off = 1 then 22 else if off = 2 then 33
     else if off = 3 then 44 else if off = 4 then 55 else 0)
  else 0

/-- Context over `fileDisk`. -/
def fileCtx : ext.FsCtx :=
  { superblock := dirSb, block_size := 1024, disk := fileDisk }

/-- The root directory inode of `fileDisk`. -/
def rootDirInode : ext.Ext2Inode :=
  { mode := 0x4000, size := 0,
    block := [9, 0, 0, 0, 0, 0, 0, 0, 0, 0, 0, 0, 0, 0, 0] }

/-- The file inode 3 of `fileDisk`. -/
def fileInode : ext.Ext2Inode :=
  { mode := 0x8000, size := 5,
    block := [10, 0, 0, 0, 0, 0, 0, 0, 0, 0, 0, 0, 0, 0, 0] }

/-! # Theorems -/

namespace mbr

/-- Scanning from accumulator `k` yields `none` exactly when no present slot
is bootable. -/
theorem findActiveAux_none_iff (l : List (Option PartitionEntry)) :
    ∀ k, findActiveAux l k = none ↔
      ∀ i pe, l.getD i none = some pe → pe.bootable = false := by
  induction l with
  | nil =>
    intro k
    simp [findActiveAux, List.getD]
  | cons o rest ih =>
    intro k
    cases o with
    | none =>
      rw [show findActiveAux (none :: rest) k = findActiveAux rest (k + 1) from rfl,
        ih (k + 1)]
      constructor
      · intro hr i pe hg
        cases i with
        | zero => simp at hg
        | succ i => exact hr i pe (by simpa using hg)
      · intro hr i pe hg
        exact hr (i + 1) pe (by simpa using hg)
    | some pe0 =>
      by_cases hb : pe0.bootable
      · constructor
        · intro hr
          simp [findActiveAux, hb] at hr
        · intro hr
          have := hr 0 pe0 (by simp)
          rw [hb] at this
          cases this
      · rw [show findActiveAux (some pe0 :: rest) k = findActiveAux rest (k + 1) by
            simp [findActiveAux, hb], ih (k + 1)]
        constructor
        · intro hr i pe hg
          cases i with
          | zero =>
            simp at hg
            rw [← hg]
            exact Bool.eq_false_iff.mpr hb
          | succ i => exact hr i pe (by simpa using hg)
        · intro hr i pe hg
          exact hr (i + 1) pe (by simpa using hg)

/-- Scanning from accumulator `k` returns the lowest-indexed bootable
present slot, offset by `k`. -/
theorem findActiveAux_some (l : List (Option PartitionEntry)) :
    ∀ k idx pe, findActiveAux l k = some (idx, pe) →
      k ≤ idx ∧ l.getD (idx - k) none = some pe ∧ pe.bootable = true ∧
        ∀ j pe2, j < idx - k → l.getD j none = some pe2 → pe2.bootable = false := by
  induction l with
  | nil => intro k idx pe h; simp [findActiveAux] at h
  | cons o rest ih =>
    intro k idx pe h
    cases o with
    | none =>
      have h1 : findActiveAux rest (k + 1) = some (idx, pe) := h
      obtain ⟨hk, hg, hb, hmin⟩ := ih (k + 1) idx pe h1
      refine ⟨by omega, ?_, hb, ?_⟩
      · have : idx - k = (idx - (k + 1)) + 1 := by omega
        rw [this, List.getD_cons_succ]
        exact hg
      · intro j pe2 hj hgj
        cases j with
        | zero => simp at hgj
        | succ j =>
          rw [List.getD_cons_succ] at hgj
          exact hmin j pe2 (by omega) hgj
    | some pe0 =>
      by_cases hb : pe0.bootable
      · have h1 : some (k, pe0) = some (idx, pe) := by
          simpa [findActiveAux, hb] using h
        have h2 := Option.some.inj h1
        have hk : k = idx := congrArg Prod.fst h2
        have hpe : pe0 = pe := congrArg Prod.snd h2
        subst hk
        subst hpe
        refine ⟨le_refl _, by simp, hb, ?_⟩
        intro j pe2 hj
        omega
      · have h1 : findActiveAux rest (k + 1) = some (idx, pe) := by
          simpa [findActiveAux, hb] using h
        obtain ⟨hk, hg, hbp, hmin⟩ := ih (k + 1) idx pe h1
        refine ⟨by omega, ?_, hbp, ?_⟩
        · have : idx - k = (idx - (k + 1)) + 1 := by omega
          rw [this, List.getD_cons_succ]
          exact hg
        · intro j pe2 hj hgj
          cases j with
          | zero =>
            simp at hgj
            rw [← hgj]
            exact Bool.eq_false_iff.mpr hb
          | succ j =>
            rw [List.getD_cons_succ] at hgj
            exact hmin j pe2 (by omega) hgj

end mbr

/-- C7: for a 512-byte sector, slot `i` of `parse_partitions` is present
exactly when the 16-byte entry at offset `446 + 16*i` has a nonzero type
code and nonzero little-endian sector count, and then carries
`bootable = (boot indicator = 0x80)`, the type byte, and the little-endian
starting LBA and sector count; each slot depends only on its own entry, so
a sector with fewer than four populated entries yields exactly that many
present slots. -/
theorem claim_C7 (mbrSec : List Nat) (h : mbrSec.length = 512)
    (i : Nat) (hi : i < 4) :
    (mbr.parse_partitions mbrSec).getD i none =
      (if byteAt mbrSec (446 + i * 16 + 4) ≠ 0 ∧ le32 mbrSec (446 + i * 16 + 12) ≠ 0 then
        some { bootable := byteAt mbrSec (446 + i * 16) = 0x80
               partition_type := byteAt mbrSec (446 + i * 16 + 4)
               starting_lba := le32 mbrSec (446 + i * 16 + 8)
               sectors := le32 mbrSec (446 + i * 16 + 12) }
      else none) := by
  interval_cases i <;>
    simp [mbr.parse_partitions, mbr.parseEntry, mbr.PARTITION_TABLE_OFFSET, h]

/-- C7 witness: every slot of an all-zero sector is empty. -/
theorem claim_C7_witness : (mbr.parse_partitions zeroSector).getD 0 none = none := by
  have h := claim_C7 zeroSector (by simp [zeroSector]) 0 (by norm_num)
  rw [h]
  norm_num [zeroSector, byteAt, le32, le32f]

/-- C8: `find_active_partition` returns `none` exactly when no present
entry has the bootable flag set; otherwise it returns the lowest-indexed
present bootable entry together with its index. -/
theorem claim_C8 (info : mbr.MbrInfo) :
    (mbr.find_active_partition info = none ↔
       ∀ i pe, info.partitions.getD i none = some pe → pe.bootable = false) ∧
    ∀ idx pe, mbr.find_active_partition info = some (idx, pe) →
      info.partitions.getD idx none = some pe ∧ pe.bootable = true ∧
        ∀ j pe2, j < idx → info.partitions.getD j none = some pe2 →
          pe2.bootable = false := by
  constructor
  · exact mbr.findActiveAux_none_iff info.partitions 0
  · intro idx pe h
    obtain ⟨-, hg, hb, hmin⟩ := mbr.findActiveAux_some info.partitions 0 idx pe h
    exact ⟨by simpa using hg, hb, fun j pe2 hj hgj => hmin j pe2 (by omega) hgj⟩

/-- C8 witness: on a table whose only bootable entry sits in slot 1, the
scan returns that entry at index 1, and the entry is indeed bootable. -/
theorem claim_C8_witness :
    demoMbrInfo.partitions.getD 1 none = some demoEntry ∧
      demoEntry.bootable = true :=
  ⟨((claim_C8 demoMbrInfo).2 1 demoEntry (by decide)).1,
   ((claim_C8 demoMbrInfo).2 1 demoEntry (by decide)).2.1⟩

namespace memory

/-- What one successful `allocate` does to the manager when the 32-bit
bounds-check sum cannot wrap: returns the old bump pointer, advances it by
the aligned size without passing `heap_end`, and touches nothing else. -/
theorem allocate_spec (s : MemoryManager) (sz p : Nat) (s1 : MemoryManager)
    (hnw : s.heap_end + alignedSize sz < 2 ^ 32)
    (hcur : s.heap_current ≤ s.heap_end)
    (h : allocate s sz = some (p, s1)) :
    p = s.heap_current ∧ s1.heap_current = s.heap_current + alignedSize sz ∧
      s1.heap_current ≤ s.heap_end ∧ s1.heap_start = s.heap_start ∧
      s1.heap_end = s.heap_end ∧ s1.regions = s.regions := by
  have hmod : (s.heap_current + alignedSize sz) % 2 ^ 32 =
      s.heap_current + alignedSize sz := Nat.mod_eq_of_lt (by omega)
  unfold allocate at h
  by_cases h0 : sz = 0
  · simp [h0] at h
  · rw [if_neg h0] at h
    dsimp only at h
    by_cases hcap : (s.heap_current + alignedSize sz) % 2 ^ 32 > s.heap_end
    · rw [if_pos hcap] at h
      cases h
    · rw [if_neg hcap] at h
      obtain ⟨rfl, rfl⟩ : p = s.heap_current ∧
          s1 = { s with
                 heap_current := (s.heap_current + alignedSize sz) % 2 ^ 32
                 allocated_bytes := (s.allocated_bytes + alignedSize sz) % 2 ^ 32 } := by
        have h2 := Option.some.inj h
        exact ⟨(congrArg Prod.fst h2).symm, (congrArg Prod.snd h2).symm⟩
      refine ⟨rfl, ?_, ?_, rfl, rfl, rfl⟩
      · show (s.heap_current + alignedSize sz) % 2 ^ 32 =
          s.heap_current + alignedSize sz
        exact hmod
      · show (s.heap_current + alignedSize sz) % 2 ^ 32 ≤ s.heap_end
        omega

/-- What a successful sequence of `allocate` calls does when no call can
wrap the 32-bit bounds-check sum: the final bump pointer is the initial
one plus the sum of the aligned sizes, it stays within `heap_end`, every
returned range lies between the initial and final bump pointers, and the
ranges are ordered end-to-start. -/
theorem allocSeq_spec :
    ∀ (sizes : List Nat) (s : MemoryManager) (out : List (Nat × Nat))
      (sf : MemoryManager),
      allocSeq s sizes = some (out, sf) → s.heap_current ≤ s.heap_end →
      (∀ sz ∈ sizes, s.heap_end + alignedSize sz < 2 ^ 32) →
      sf.heap_start = s.heap_start ∧ sf.heap_end = s.heap_end ∧
        sf.heap_current = s.heap_current + (out.map Prod.snd).sum ∧
        sf.heap_current ≤ s.heap_end ∧
        (∀ r ∈ out, s.heap_current ≤ r.1 ∧ r.1 + r.2 ≤ sf.heap_current) ∧
        List.Pairwise (fun a b => a.1 + a.2 ≤ b.1) out := by
  intro sizes
  induction sizes with
  | nil =>
    intro s out sf h hle _
    obtain ⟨rfl, rfl⟩ : out = [] ∧ sf = s := by
      have h2 := Option.some.inj h
      exact ⟨(congrArg Prod.fst h2).symm, (congrArg Prod.snd h2).symm⟩
    simp [hle]
  | cons sz rest ih =>
    intro s out sf h hle hsz
    cases halloc : allocate s sz with
    | none => simp [allocSeq, halloc] at h
    | some ps1 =>
      obtain ⟨p, s1⟩ := ps1
      cases hrec : allocSeq s1 rest with
      | none => simp [allocSeq, halloc, hrec] at h
      | some ls2 =>
        obtain ⟨l, s2⟩ := ls2
        have key : allocSeq s (sz :: rest) = some ((p, alignedSize sz) :: l, s2) := by
          simp [allocSeq, halloc, hrec]
        rw [key] at h
        obtain ⟨rfl, rfl⟩ : out = (p, alignedSize sz) :: l ∧ sf = s2 := by
          have h2 := Option.some.inj h
          exact ⟨(congrArg Prod.fst h2).symm, (congrArg Prod.snd h2).symm⟩
        obtain ⟨hp, hcur, hcap, hhs, hhe, -⟩ := allocate_spec s sz p s1
          (hsz sz (List.mem_cons_self _ _)) hle halloc
        obtain ⟨ihs, ihe, ihcur, ihcap, ihmem, ihpw⟩ :=
          ih s1 l sf hrec (by omega)
            (by
              intro sz2 hsz2
              rw [hhe]
              exact hsz sz2 (List.mem_cons_of_mem _ hsz2))
        refine ⟨by omega, by omega, ?_, by omega, ?_, ?_⟩
        · simp only [List.map_cons, List.sum_cons]
          omega
        · intro r hr
          rcases List.mem_cons.mp hr with hr | hr
          · subst hr; constructor <;> omega
          · have := ihmem r hr
            constructor <;> omega
        · rw [List.pairwise_cons]
          refine ⟨?_, ihpw⟩
          intro b hb
          have := (ihmem b hb).1
          omega

end memory

/-- C5 (amended): for any sequence of successful `allocate` calls on one
manager whose state satisfies `heap_start ≤ heap_current ≤ heap_end`, and
in which each request's 8-byte-rounded size keeps the 32-bit bounds-check
sum from wrapping (`heap_end + aligned size < 2^32`), the returned ranges
`[ptr, ptr + aligned size)` are pairwise disjoint, the sum of the
8-byte-rounded sizes never exceeds `heap_end - heap_start`, and
`heap_start ≤ heap_current ≤ heap_end` still holds afterwards. -/
theorem claim_C5 (s : memory.MemoryManager) (sizes : List Nat)
    (out : List (Nat × Nat)) (sf : memory.MemoryManager)
    (hinv1 : s.heap_start ≤ s.heap_current) (hinv2 : s.heap_current ≤ s.heap_end)
    (hnw : ∀ sz ∈ sizes, s.heap_end + memory.alignedSize sz < 2 ^ 32)
    (hrun : memory.allocSeq s sizes = some (out, sf)) :
    List.Pairwise (fun a b : Nat × Nat => a.1 + a.2 ≤ b.1 ∨ b.1 + b.2 ≤ a.1) out ∧
      (out.map Prod.snd).sum ≤ s.heap_end - s.heap_start ∧
      sf.heap_start ≤ sf.heap_current ∧ sf.heap_current ≤ sf.heap_end := by
  obtain ⟨hhs, hhe, hcur, hcap, hmem, hpw⟩ :=
    memory.allocSeq_spec sizes s out sf hrun hinv2 hnw
  refine ⟨hpw.imp (fun h => Or.inl h), by omega, by omega, by omega⟩

/-- C5 counterexample: on a fresh manager, the single successful call
`allocate 0xFFFFFF00` wraps the 32-bit bounds-check sum
(0x100000 + 0xFFFFFF00 ≡ 0xFFF00 mod 2^32 ≤ heap_end), is accepted, drops
`heap_current` below `heap_start`, and its rounded size alone exceeds
`heap_end - heap_start` — refuting the unrestricted claim. -/
theorem claim_C5_counterexample :
    memory.allocSeq memory.mmNew [0xFFFFFF00] =
      some ([(0x100000, 0xFFFFFF00)], c5wrapState) ∧
    c5wrapState.heap_current < c5wrapState.heap_start ∧
    memory.mmNew.heap_end - memory.mmNew.heap_start <
      (([(0x100000, 0xFFFFFF00)] : List (Nat × Nat)).map Prod.snd).sum :=
  ⟨by decide, by decide, by decide⟩

/-- C5 witness: allocating 16 then 5 bytes on a fresh manager returns the
disjoint ranges `[0x100000, 0x100010)` and `[0x100010, 0x100018)`. -/
theorem claim_C5_witness :
    List.Pairwise (fun a b : Nat × Nat => a.1 + a.2 ≤ b.1 ∨ b.1 + b.2 ≤ a.1)
      [(0x100000, 16), (0x100010, 8)] :=
  (claim_C5 memory.mmNew [16, 5] [(0x100000, 16), (0x100010, 8)] c5final
    (by decide) (by decide) (by decide) (by decide)).1

/-- C6 (amended): whenever the requested range `[start, start + size)`
intersects the already-allocated span `[heap_start, heap_current)` and the
32-bit sum `start + size` does not wrap (`start + size < 2^32`),
`reserve_region` returns the overlap error and leaves the manager —
`heap_end`, `heap_current` and the region catalogue included —
unchanged. -/
theorem claim_C6 (s : memory.MemoryManager) (start size : Nat)
    (hnw : start + size < 2 ^ 32)
    (hx : ∃ x, start ≤ x ∧ x < start + size ∧ s.heap_start ≤ x ∧ x < s.heap_current) :
    memory.reserve_region s start size =
      (.error "Cannot reserve region that conflicts with allocated memory", s) := by
  obtain ⟨x, h1, h2, h3, h4⟩ := hx
  have hm : (start + size) % 2 ^ 32 = start + size := Nat.mod_eq_of_lt hnw
  have hcond : start < s.heap_current ∧ (start + size) % 2 ^ 32 > s.heap_start := by
    constructor
    · omega
    · rw [hm]
      omega
  unfold memory.reserve_region
  rw [if_pos hcond]

/-- C6 counterexample: with `[0x100000, 0x300000)` allocated, the request
`reserve_region 0x200000 0xFFE01000` covers 0x200000 — inside the
allocated span — yet the 32-bit sum 0x200000 + 0xFFE01000 wraps to 0x1000
≤ heap_start, the overlap check is skipped, and the call returns Ok after
appending a Reserved region — refuting the unrestricted claim. -/
theorem claim_C6_counterexample :
    (0x200000 ≤ 0x200000 ∧ (0x200000 : Nat) < 0x200000 + 0xFFE01000 ∧
      c6wrapState.heap_start ≤ 0x200000 ∧ 0x200000 < c6wrapState.heap_current) ∧
    memory.reserve_region c6wrapState 0x200000 0xFFE01000 =
      (.ok (), c6wrapAfter) :=
  ⟨by decide, by decide⟩

/-- C6 witness: reserving `[0x100000, 0x100008)` on a manager whose first 8
bytes are already allocated fails and changes nothing. -/
theorem claim_C6_witness :
    memory.reserve_region c6state 0x100000 8 =
      (.error "Cannot reserve region that conflicts with allocated memory", c6state) :=
  claim_C6 c6state 0x100000 8 (by decide) ⟨0x100000, by decide⟩

namespace disk

/-- `writeRange` keeps the buffer length. -/
theorem writeRange_length (buf : List Nat) (off len : Nat) (f : Nat → Nat) :
    (writeRange buf off len f).length = buf.length := by
  simp [writeRange]

/-- Pointwise description of `writeRange` inside the buffer. -/
theorem writeRange_getD (buf : List Nat) (off len : Nat) (f : Nat → Nat)
    (i : Nat) (hi : i < buf.length) :
    (writeRange buf off len f).getD i 0 =
      if off ≤ i ∧ i < off + len then f (i - off) else buf.getD i 0 := by
  unfold writeRange List.getD
  rw [List.get?_map, List.get?_range hi]
  simp

/-- Full description of the chunk loop: it preserves the buffer length,
fills `buffer[off .. off + count*512)` with the device bytes of sectors
`lba .. lba + count`, leaves the rest of the buffer alone, and issues
exactly the canonical chunk commands. -/
theorem readLoop_spec (dsk : Nat → Nat → Nat) :
    ∀ count lba off (buf : List Nat),
      off + count * 512 ≤ buf.length → lba + count ≤ 2 ^ 32 →
      (readLoop dsk lba count off buf).1.length = buf.length ∧
        (∀ j, j < count * 512 →
          (readLoop dsk lba count off buf).1.getD (off + j) 0 =
            dsk (lba + j / 512) (j % 512)) ∧
        (∀ j, j < off ∨ off + count * 512 ≤ j →
          (readLoop dsk lba count off buf).1.getD j 0 = buf.getD j 0) ∧
        (readLoop dsk lba count off buf).2 = chunks lba count := by
  intro count
  induction count using Nat.strong_induction_on with
  | h count ih =>
    intro lba off buf hlen hlba
    by_cases h0 : count = 0
    · subst h0
      rw [readLoop, chunks]
      simp
    · have hchunk1 : 1 ≤ min count 255 := by omega
      have hchunk2 : min count 255 ≤ count := by omega
      set c := min count 255 with hc
      have hstep :
          readLoop dsk lba count off buf =
            ((readLoop dsk ((lba + c) % 2 ^ 32) (count - c) (off + c * 512)
                (writeRange buf off (c * 512)
                  (fun j => dsk (lba + j / 512) (j % 512)))).1,
             (lba, c) ::
               (readLoop dsk ((lba + c) % 2 ^ 32) (count - c) (off + c * 512)
                 (writeRange buf off (c * 512)
                   (fun j => dsk (lba + j / 512) (j % 512)))).2) := by
        rw [readLoop]
        simp [h0]
      have hcstep : chunks lba count = (lba, c) :: chunks ((lba + c) % 2 ^ 32) (count - c) := by
        rw [chunks]
        simp [h0]
      set buf2 := writeRange buf off (c * 512) (fun j => dsk (lba + j / 512) (j % 512))
        with hbuf2
      have hlen2 : buf2.length = buf.length := writeRange_length ..
      have hrecbound : (off + c * 512) + (count - c) * 512 ≤ buf2.length := by
        rw [hlen2]
        have : c * 512 + (count - c) * 512 = count * 512 := by
          rw [← Nat.add_mul]
          congr 1
          omega
        omega
      have hnowrap : count - c ≠ 0 → (lba + c) % 2 ^ 32 = lba + c := by
        intro hne
        exact Nat.mod_eq_of_lt (by omega)
      have hlba2 : (lba + c) % 2 ^ 32 + (count - c) ≤ 2 ^ 32 := by
        by_cases hne : count - c = 0
        · simp [hne]
          exact Nat.le_of_lt (Nat.mod_lt _ (by norm_num))
        · rw [hnowrap hne]
          omega
      obtain ⟨ih1, ih2, ih3, ih4⟩ :=
        ih (count - c) (by omega) ((lba + c) % 2 ^ 32) (off + c * 512) buf2
          hrecbound hlba2
      rw [hstep, hcstep]
      refine ⟨by rw [ih1, hlen2], ?_, ?_, by rw [ih4]⟩
      · intro j hj
        by_cases hjc : j < c * 512
        · rw [ih3 (off + j) (Or.inl (by omega))]
          rw [hbuf2, writeRange_getD buf off (c * 512) _ (off + j) (by omega)]
          rw [if_pos ⟨by omega, by omega⟩]
          congr 1 <;> omega
        · have hcn0 : count - c ≠ 0 := by
            rcases Nat.eq_zero_or_pos (count - c) with hz | hp
            · exfalso
              have : count = c := by omega
              omega
            · omega
          have hj2 : j - c * 512 < (count - c) * 512 := by
            have : c * 512 + (count - c) * 512 = count * 512 := by
              rw [← Nat.add_mul]
              congr 1
              omega
            omega
          have := ih2 (j - c * 512) hj2
          rw [show off + c * 512 + (j - c * 512) = off + j by omega] at this
          rw [this, hnowrap hcn0]
          congr 1 <;> omega
      · intro j hj
        have hout : j < off + c * 512 ∨ off + c * 512 + (count - c) * 512 ≤ j := by
          have : c * 512 + (count - c) * 512 = count * 512 := by
            rw [← Nat.add_mul]
            congr 1
            omega
          omega
        have hout2 : j < off ∨ j ≥ buf.length ∨
            (off ≤ j ∧ (j < off ∨ off + c * 512 ≤ j)) := by omega
        rw [ih3 j (by omega)]
        by_cases hjlen : j < buf.length
        · rw [hbuf2, writeRange_getD buf off (c * 512) _ j hjlen]
          rw [if_neg (by omega)]
        · have h1 : buf2.getD j 0 = 0 := by
            apply List.getD_eq_default
            omega
          have h2 : buf.getD j 0 = 0 := by
            apply List.getD_eq_default
            omega
          rw [h1, h2]

/-- Every canonical chunk command covers between 1 and 255 sectors, and
the chunk sector counts sum to the requested count. -/
theorem chunks_spec :
    ∀ count lba, (∀ c ∈ chunks lba count, 0 < c.2 ∧ c.2 ≤ 255) ∧
      ((chunks lba count).map Prod.snd).sum = count := by
  intro count
  induction count using Nat.strong_induction_on with
  | h count ih =>
    intro lba
    by_cases h0 : count = 0
    · subst h0
      rw [chunks]
      simp
    · have hstep : chunks lba count =
          (lba, min count 255) :: chunks ((lba + min count 255) % 2 ^ 32) (count - min count 255) := by
        rw [chunks]
        simp [h0]
      obtain ⟨ihm, ihs⟩ :=
        ih (count - min count 255) (by omega) ((lba + min count 255) % 2 ^ 32)
      rw [hstep]
      constructor
      · intro c hc
        rcases List.mem_cons.mp hc with hc | hc
        · subst hc
          constructor <;> simp <;> omega
        · exact ihm c hc
      · simp only [List.map_cons, List.sum_cons, ihs]
        omega

/-- The first canonical chunk command starts at the requested LBA. -/
theorem chunks_head (lba count : Nat) (h : count ≠ 0) :
    (chunks lba count).getD 0 (0, 0) = (lba, min count 255) := by
  rw [chunks]
  simp [h]

/-- Without 32-bit wraparound, each canonical chunk command starts exactly
where the previous one ended: the starting LBAs are contiguous. -/
theorem chunks_contig :
    ∀ count lba, lba + count ≤ 2 ^ 32 →
      ∀ k, k + 1 < (chunks lba count).length →
        ((chunks lba count).getD (k + 1) (0, 0)).1 =
          ((chunks lba count).getD k (0, 0)).1 +
            ((chunks lba count).getD k (0, 0)).2 := by
  intro count
  induction count using Nat.strong_induction_on with
  | h count ih =>
    intro lba hlba k hk
    by_cases h0 : count = 0
    · subst h0
      rw [chunks] at hk
      simp at hk
    · have hstep : chunks lba count =
          (lba, min count 255) :: chunks ((lba + min count 255) % 2 ^ 32) (count - min count 255) := by
        rw [chunks]
        simp [h0]
      by_cases hrest : count - min count 255 = 0
      · rw [hstep] at hk
        simp only [List.length_cons] at hk
        rw [hrest, chunks] at hk
        simp at hk
      · have hmod : (lba + min count 255) % 2 ^ 32 = lba + min count 255 :=
          Nat.mod_eq_of_lt (by omega)
        cases k with
        | zero =>
          rw [hstep]
          simp only [List.getD_cons_succ, List.getD_cons_zero]
          rw [hmod, chunks_head _ _ hrest]
        | succ k =>
          rw [hstep]
          simp only [List.getD_cons_succ]
          rw [hmod]
          apply ih (count - min count 255) (by omega) (lba + min count 255) (by omega) k
          rw [hstep] at hk
          simp only [List.length_cons] at hk
          rw [hmod] at hk
          omega

end disk

/-- C9: with a positive sector count (and no 28-bit LBA wraparound),
`read_sectors` fails with the buffer-too-small error (classified
ResourceExhausted by the spec) whenever the buffer holds fewer than
`count * 512` bytes; otherwise it fills `buffer[0 .. count*512)` with the
512-byte sectors starting at `lba`, leaves the remaining bytes unchanged,
and issues commands of 1..255 sectors each whose counts sum to `count` and
whose starting LBAs are contiguous. -/
theorem claim_C9 (lba count : Nat) (buf : List Nat) (dsk : Nat → Nat → Nat)
    (hcount : 0 < count) (hlba : lba + count ≤ 2 ^ 32) :
    (buf.length < count * 512 →
       disk.read_sectors lba count buf dsk =
         .error "buffer too small for read_sectors") ∧
    (count * 512 ≤ buf.length →
       ∀ out cmds, disk.read_sectors lba count buf dsk = .ok (out, cmds) →
         out.length = buf.length ∧
         (∀ j, j < count * 512 → out.getD j 0 = dsk (lba + j / 512) (j % 512)) ∧
         (∀ j, count * 512 ≤ j → out.getD j 0 = buf.getD j 0) ∧
         (∀ c ∈ cmds, 0 < c.2 ∧ c.2 ≤ 255) ∧
         ((cmds.map Prod.snd).sum = count) ∧
         (∀ k, k + 1 < cmds.length →
           (cmds.getD (k + 1) (0, 0)).1 =
             (cmds.getD k (0, 0)).1 + (cmds.getD k (0, 0)).2)) := by
  constructor
  · intro hsmall
    unfold disk.read_sectors
    rw [if_neg (by omega), if_pos hsmall]
  · intro hfit out cmds hok
    have hkey : disk.read_sectors lba count buf dsk = .ok (disk.readLoop dsk lba count 0 buf) := by
      unfold disk.read_sectors
      rw [if_neg (by omega), if_neg (by omega)]
    rw [hkey] at hok
    have h2 := Except.ok.inj hok
    obtain ⟨ho, hc⟩ : (disk.readLoop dsk lba count 0 buf).1 = out ∧
        (disk.readLoop dsk lba count 0 buf).2 = cmds := by
      exact ⟨congrArg Prod.fst h2, congrArg Prod.snd h2⟩
    obtain ⟨r1, r2, r3, r4⟩ :=
      disk.readLoop_spec dsk count lba 0 buf (by omega) hlba
    rw [ho] at r1 r2 r3
    rw [hc] at r4
    refine ⟨r1, ?_, ?_, ?_, ?_, ?_⟩
    · intro j hj
      have := r2 j hj
      simpa using this
    · intro j hj
      exact r3 j (Or.inr (by omega))
    · intro c hcmem
      exact (disk.chunks_spec count lba).1 c (r4 ▸ hcmem)
    · rw [r4]
      exact (disk.chunks_spec count lba).2
    · intro k hk
      rw [r4] at hk ⊢
      exact disk.chunks_contig count lba hlba k hk

/-- C9 witness: a one-sector read at LBA 7 into a 512-byte buffer keeps the
buffer length. -/
theorem claim_C9_witness :
    (disk.writeRange c9buf 0 (1 * 512)
       (fun j => c9dsk (7 + j / 512) (j % 512))).length = c9buf.length :=
  ((claim_C9 7 1 c9buf c9dsk (by norm_num) (by norm_num)).2
    (by simp [c9buf])
    (disk.writeRange c9buf 0 (1 * 512) (fun j => c9dsk (7 + j / 512) (j % 512)))
    [(7, 1)]
    (by
      unfold disk.read_sectors
      rw [if_neg (by norm_num), if_neg (by simp [c9buf])]
      rw [disk.readLoop]
      norm_num
      rw [disk.readLoop]
      simp)).1

/-- C4: `init_with_lba` succeeds exactly when the superblock magic is the
ext signature 0xEF53, the extents (0x40) and 64-bit (0x80) incompat
feature bits are both absent, and the block size `1024 * 2^log_block_size`
derived from the stored exponent is a multiple of 512 of at most 4096; on
any violation it returns an error, and then no state is installed (the
embedding only produces an `FsState` on the `.ok` path). -/
theorem claim_C4 (lba : Nat) (sb : ext.Ext2Superblock) :
    (ext.init_with_lba lba sb).isOk = true ↔
      (sb.magic = 0xEF53 ∧ sb.feature_incompat &&& 0x40 = 0 ∧
       sb.feature_incompat &&& 0x80 = 0 ∧
       (1024 * 2 ^ sb.log_block_size) % 512 = 0 ∧
       1024 * 2 ^ sb.log_block_size ≤ 4096) := by
  simp only [ext.init_with_lba, Nat.shiftLeft_eq]
  by_cases hm : sb.magic = 0xEF53
  · rw [if_neg (by simp [hm])]
    by_cases hf1 : sb.feature_incompat &&& 0x40 = 0
    · by_cases hf2 : sb.feature_incompat &&& 0x80 = 0
      · rw [if_neg (by simp [hf1, hf2])]
        by_cases hlog : sb.log_block_size ≥ 32
        · rw [if_pos hlog]
          refine iff_of_false (by simp [Except.isOk, Except.toBool]) ?_
          rintro ⟨-, -, -, -, h5⟩
          have hp : (2 : Nat) ^ 32 ≤ 2 ^ sb.log_block_size :=
            Nat.pow_le_pow_right (by norm_num) hlog
          have h32 : (2 : Nat) ^ 32 = 4294967296 := by norm_num
          omega
        · rw [if_neg hlog]
          by_cases hbig : sb.log_block_size ≥ 22
          · have hz : (1024 * 2 ^ sb.log_block_size) % 2 ^ 32 = 0 := by
              have he : 1024 * 2 ^ sb.log_block_size = 2 ^ (10 + sb.log_block_size) := by
                rw [pow_add]
                norm_num
              rw [he]
              exact Nat.mod_eq_zero_of_dvd (pow_dvd_pow 2 (by omega))
            rw [if_pos hz]
            refine iff_of_false (by simp [Except.isOk, Except.toBool]) ?_
            rintro ⟨-, -, -, -, h5⟩
            have hp : (2 : Nat) ^ 22 ≤ 2 ^ sb.log_block_size :=
              Nat.pow_le_pow_right (by norm_num) hbig
            have h22 : (2 : Nat) ^ 22 = 4194304 := by norm_num
            omega
          · have hsmall : 2 ^ sb.log_block_size ≤ 2 ^ 21 :=
              Nat.pow_le_pow_right (by norm_num) (by omega)
            have h21 : (2 : Nat) ^ 21 = 2097152 := by norm_num
            have h32 : (2 : Nat) ^ 32 = 4294967296 := by norm_num
            have hpos : 0 < 2 ^ sb.log_block_size := Nat.pos_pow_of_pos _ (by norm_num)
            have hmod : (1024 * 2 ^ sb.log_block_size) % 2 ^ 32 =
                1024 * 2 ^ sb.log_block_size := Nat.mod_eq_of_lt (by omega)
            rw [hmod, if_neg (by omega)]
            by_cases h4096 : 1024 * 2 ^ sb.log_block_size > 4096
            · rw [if_pos h4096]
              refine iff_of_false (by simp [Except.isOk, Except.toBool]) ?_
              rintro ⟨-, -, -, -, h5⟩
              omega
            · rw [if_neg h4096]
              have hdvd : (1024 * 2 ^ sb.log_block_size) % 512 = 0 := by
                have : (512 : Nat) ∣ 1024 * 2 ^ sb.log_block_size :=
                  Dvd.dvd.mul_right ⟨2, by norm_num⟩ _
                omega
              rw [if_neg (by omega)]
              exact iff_of_true (by simp [Except.isOk, Except.toBool])
                ⟨hm, hf1, hf2, hdvd, by omega⟩
      · rw [if_pos (by simp [hf2])]
        refine iff_of_false (by simp [Except.isOk, Except.toBool]) ?_
        rintro ⟨-, -, h3, -, -⟩
        exact hf2 h3
    · rw [if_pos (by simp [hf1])]
      refine iff_of_false (by simp [Except.isOk, Except.toBool]) ?_
      rintro ⟨-, h2, -, -, -⟩
      exact hf1 h2
  · rw [if_pos (by simp [hm])]
    refine iff_of_false (by simp [Except.isOk, Except.toBool]) ?_
    rintro ⟨h1, -, -, -, -⟩
    exact hm h1

namespace loader

/-- Unfolding of one program-header iteration. -/
theorem elfLoop_succ (data : List Nat) (phOff phSize i0 count : Nat)
    (mem : Nat → Nat) :
    elfLoop data phOff phSize i0 (count + 1) mem =
      elfLoop data phOff phSize (i0 + 1) count
        (if phOff + i0 * phSize + 32 > data.length then mem
         else if le32 data (phOff + i0 * phSize) = 1 then
           loadSegment data (phOff + i0 * phSize) mem
         else mem) := rfl

/-- The program-header loop with no headers left changes nothing. -/
theorem elfLoop_zero (data : List Nat) (phOff phSize i0 : Nat)
    (mem : Nat → Nat) :
    elfLoop data phOff phSize i0 0 mem = mem := rfl

/-- `memAfter` of a successful load is the loaded memory. -/
theorem memAfter_ok (e : Nat) (m : Nat → Nat) (a : Nat) :
    memAfter (.ok (e, m)) a = some (m a) := rfl

end loader

/-- C1: on a well-formed 32-bit little-endian ELF image that declares
exactly one program header, of type PT_LOAD with `file_size = 100`,
`mem_size = 400` and virtual address 0x100000, and whose segment file data
fits in the image, `parse_and_load_elf` succeeds and the resulting memory
holds the 100 segment-file bytes at physical 0x100000..0x100064 — the
destination being the header's declared virtual address — and zero at
0x100064..0x100190. -/
theorem claim_C1 (data : List Nat) (loadAddr : Nat) (mem : Nat → Nat)
    (hlen : 52 ≤ data.length)
    (hmag : byteAt data 0 = 0x7F ∧ byteAt data 1 = 0x45 ∧
      byteAt data 2 = 0x4C ∧ byteAt data 3 = 0x46)
    (hclass : byteAt data 4 = 1) (hendian : byteAt data 5 = 1)
    (hcount : le16 data 44 = 1)
    (hfit : le32 data 28 + 32 ≤ data.length)
    (htype : le32 data (le32 data 28) = 1)
    (hfsz : le32 data (le32 data 28 + 16) = 100)
    (hmsz : le32 data (le32 data 28 + 20) = 400)
    (hva : le32 data (le32 data 28 + 8) = 0x100000)
    (hdata : le32 data (le32 data 28 + 4) + 100 ≤ data.length) :
    (∀ a, 0x100000 ≤ a → a < 0x100064 →
       loader.memAfter (loader.parse_and_load_elf data loadAddr mem) a =
         some (byteAt data (le32 data (le32 data 28 + 4) + (a - 0x100000)))) ∧
    (∀ a, 0x100064 ≤ a → a < 0x100190 →
       loader.memAfter (loader.parse_and_load_elf data loadAddr mem) a = some 0) := by
  have hparse : loader.parse_and_load_elf data loadAddr mem =
      .ok (le32 data 24, loader.elfLoop data (le32 data 28) (le16 data 42) 0 (le16 data 44) mem) := by
    unfold loader.parse_and_load_elf
    rw [if_neg (by omega),
      if_neg (by simp [hmag.1, hmag.2.1, hmag.2.2.1, hmag.2.2.2]),
      if_neg (by simp [hclass]), if_neg (by simp [hendian])]
  have hone : loader.elfLoop data (le32 data 28) (le16 data 42) 0 (le16 data 44) mem =
      loader.loadSegment data (le32 data 28) mem := by
    rw [hcount, show (1 : Nat) = 0 + 1 from rfl, loader.elfLoop_succ,
      loader.elfLoop_zero]
    rw [if_neg (by simp; omega), if_pos (by simpa using htype)]
    simp
  have hseg : ∀ a, loader.loadSegment data (le32 data 28) mem a =
      if 0x100000 ≤ a ∧ a < 0x100000 + 100 then
        byteAt data (le32 data (le32 data 28 + 4) + (a - 0x100000))
      else if 400 > 100 ∧ 0x100000 + 100 ≤ a ∧ a < 0x100000 + 400 then 0
      else mem a := by
    intro a
    unfold loader.loadSegment
    rw [hfsz, hmsz, hva]
    rw [if_pos (by omega)]
  constructor
  · intro a ha1 ha2
    rw [hparse, loader.memAfter_ok, hone, hseg a, if_pos ⟨by omega, by omega⟩]
  · intro a ha1 ha2
    rw [hparse, loader.memAfter_ok, hone, hseg a, if_neg (by omega),
      if_pos ⟨by norm_num, by omega, by omega⟩]

/-- C1 witness: loading the concrete demo image writes the first segment
byte 1 at 0x100000, the last at 0x100063, and zero fill at 0x100064 and
0x10018F. -/
theorem claim_C1_witness :
    loader.memAfter (loader.parse_and_load_elf demoElf 0x200000 demoMem) 0x100000 =
        some 1 ∧
      loader.memAfter (loader.parse_and_load_elf demoElf 0x200000 demoMem) 0x100064 =
        some 0 := by
  have h := claim_C1 demoElf 0x200000 demoMem (by decide)
    ⟨by decide, by decide, by decide, by decide⟩ (by decide) (by decide)
    (by decide) (by decide) (by decide) (by decide) (by decide) (by decide)
    (by decide)
  constructor
  · have h1 := h.1 0x100000 (by norm_num) (by norm_num)
    rw [h1]
    decide
  · exact h.2 0x100064 (by norm_num) (by norm_num)

namespace ext

/-- The block walk never reads past the declared file size. -/
theorem fillFromBlocks_le (ctx : FsCtx) (fs : Nat) :
    ∀ (l : List Nat) (buf : Nat → Nat) (br : Nat), br ≤ fs →
      (fillFromBlocks ctx fs l buf br).2 ≤ fs := by
  intro l
  induction l with
  | nil => intro buf br h; exact h
  | cons b rest ih =>
    intro buf br h
    by_cases hstop : b = 0 ∨ br ≥ fs
    · rw [fillFromBlocks, if_pos hstop]
      exact h
    · rw [fillFromBlocks, if_neg hstop]
      apply ih
      show br + min ctx.block_size (fs - br) ≤ fs
      omega

/-- The double-indirect walk never reads past the declared file size. -/
theorem doubleLoop_le (ctx : FsCtx) (fs : Nat) :
    ∀ (l : List Nat) (buf : Nat → Nat) (br : Nat), br ≤ fs →
      (doubleLoop ctx fs l buf br).2 ≤ fs := by
  intro l
  induction l with
  | nil => intro buf br h; exact h
  | cons p rest ih =>
    intro buf br h
    by_cases hstop : p = 0 ∨ br ≥ fs
    · rw [doubleLoop, if_pos hstop]
      exact h
    · rw [doubleLoop, if_neg hstop]
      apply ih
      exact fillFromBlocks_le ctx fs _ _ _ h

/-- `read_inode_data` never gathers more than the declared size. -/
theorem read_inode_run_le (ctx : FsCtx) (inode : Ext2Inode) :
    (read_inode_run ctx inode).2 ≤ inode.size := by
  unfold read_inode_run
  dsimp only
  have h1 : (fillFromBlocks ctx inode.size (inode.block.take 12) (fun _ => 0) 0).2 ≤
      inode.size := fillFromBlocks_le ctx inode.size _ _ _ (Nat.zero_le _)
  split
  · split
    · exact doubleLoop_le _ _ _ _ _ (fillFromBlocks_le _ _ _ _ _ h1)
    · exact fillFromBlocks_le _ _ _ _ _ h1
  · split
    · exact doubleLoop_le _ _ _ _ _ h1
    · exact h1

/-- A successful `read_inode_data` reports exactly the declared size. -/
theorem read_inode_data_size (ctx : FsCtx) (inode : Ext2Inode) (buf : FileBuffer)
    (h : read_inode_data ctx inode = .ok buf) : buf.size = inode.size := by
  unfold read_inode_data at h
  by_cases hmax : inode.size > MAX_FILE_SIZE
  · rw [if_pos hmax] at h
    cases h
  · rw [if_neg hmax] at h
    by_cases hlt : (read_inode_run ctx inode).2 < inode.size
    · rw [if_pos hlt] at h
      cases h
    · rw [if_neg hlt] at h
      have h2 := Except.ok.inj h
      rw [← h2]
      have := read_inode_run_le ctx inode
      show (read_inode_run ctx inode).2 = inode.size
      omega

/-- Any inode produced by `get_inode` carries exactly 15 block pointers. -/
theorem get_inode_block_length (ctx : FsCtx) (n : Nat) (inode : Ext2Inode)
    (h : get_inode ctx n = .ok inode) : inode.block.length = 15 := by
  unfold get_inode at h
  dsimp only at h
  repeat' split at h
  all_goals try cases h
  all_goals simp

/-- `getD` through `take` within the taken range. -/
theorem getD_take (l : List Nat) (n k : Nat) (h : k < n) :
    (l.take n).getD k 0 = l.getD k 0 := by
  unfold List.getD
  rw [List.get?_eq_getElem?, List.get?_eq_getElem?, List.getElem?_take, if_pos h]

/-- The direct-block walk on a fully backed prefix: if the declared size
fits in the listed blocks and every block needed for it is nonzero, the
walk reads exactly `fs` bytes, filling byte `j` (for `br ≤ j < fs`) from
block `(j - br) / block_size` at offset `(j - br) % block_size`, and
leaving bytes below `br` untouched. -/
theorem fillFromBlocks_direct (ctx : FsCtx) (fs : Nat) (hbs : 0 < ctx.block_size) :
    ∀ (l : List Nat) (buf : Nat → Nat) (br : Nat),
      br ≤ fs → fs - br ≤ l.length * ctx.block_size →
      (∀ k, br + k * ctx.block_size < fs → l.getD k 0 ≠ 0) →
      (fillFromBlocks ctx fs l buf br).2 = fs ∧
      (∀ j, br ≤ j → j < fs →
        (fillFromBlocks ctx fs l buf br).1 j =
          blockByte ctx (l.getD ((j - br) / ctx.block_size) 0)
            ((j - br) % ctx.block_size)) ∧
      (∀ j, j < br → (fillFromBlocks ctx fs l buf br).1 j = buf j) := by
  intro l
  induction l with
  | nil =>
    intro buf br h1 h2 _
    simp only [List.length_nil, Nat.zero_mul] at h2
    have hbr : br = fs := by omega
    refine ⟨hbr, ?_, fun j _ => rfl⟩
    intro j hj1 hj2
    omega
  | cons b rest ih =>
    intro buf br h1 h2 h3
    by_cases heq : br = fs
    · rw [fillFromBlocks, if_pos (Or.inr (by omega))]
      refine ⟨heq, ?_, fun j _ => rfl⟩
      intro j hj1 hj2
      omega
    · have hlt : br < fs := by omega
      have hb0 : b ≠ 0 := by
        have := h3 0 (by simpa using hlt)
        simpa using this
      have hlen : (b :: rest).length * ctx.block_size =
          rest.length * ctx.block_size + ctx.block_size := by
        simp [Nat.succ_mul]
      rw [fillFromBlocks, if_neg (by push_neg; exact ⟨hb0, by omega⟩)]
      dsimp only
      rw [show (copyBlock ctx fs b buf br).1 =
            (fun a => if br ≤ a ∧ a < br + min ctx.block_size (fs - br) then
              blockByte ctx b (a - br) else buf a) from rfl,
          show (copyBlock ctx fs b buf br).2 = br + min ctx.block_size (fs - br) from rfl]
      obtain ⟨ih1, ih2, ih3⟩ := ih
        (fun a => if br ≤ a ∧ a < br + min ctx.block_size (fs - br) then
          blockByte ctx b (a - br) else buf a)
        (br + min ctx.block_size (fs - br)) (by omega) (by omega)
        (by
          intro k hk
          have hcase : min ctx.block_size (fs - br) = ctx.block_size ∨
              min ctx.block_size (fs - br) = fs - br := by omega
          rcases hcase with htc | htc
          · rw [htc] at hk
            have hmul : (k + 1) * ctx.block_size = k * ctx.block_size + ctx.block_size := by
              ring
            have := h3 (k + 1) (by omega)
            simpa using this
          · rw [htc] at hk
            omega)
      refine ⟨ih1, ?_, ?_⟩
      · intro j hj1 hj2
        by_cases hjc : j < br + min ctx.block_size (fs - br)
        · rw [ih3 j hjc]
          rw [if_pos ⟨hj1, hjc⟩, Nat.div_eq_of_lt (by omega : j - br < ctx.block_size),
            Nat.mod_eq_of_lt (by omega : j - br < ctx.block_size), List.getD_cons_zero]
        · have htc : min ctx.block_size (fs - br) = ctx.block_size := by omega
          rw [ih2 j (by omega) hj2, htc]
          have hdv : (j - br) / ctx.block_size =
              (j - (br + ctx.block_size)) / ctx.block_size + 1 := by
            rw [show j - br = (j - (br + ctx.block_size)) + ctx.block_size by omega,
              Nat.add_div_right _ hbs]
          have hmd : (j - br) % ctx.block_size =
              (j - (br + ctx.block_size)) % ctx.block_size := by
            rw [show j - br = (j - (br + ctx.block_size)) + ctx.block_size by omega,
              Nat.add_mod_right]
          rw [hdv, hmd, List.getD_cons_succ]
      · intro j hj
        rw [ih3 j (by omega), if_neg (by omega)]

/-- A read inside the block is the device byte. -/
theorem blockByte_lt (ctx : FsCtx) (b off : Nat) (h : off < ctx.block_size) :
    blockByte ctx b off = ctx.disk b off := if_pos h

/-- For an inode whose declared size fits in its (all nonzero) direct
blocks, the chain walk reads exactly the declared size, byte `j` coming
from direct block `j / block_size` at offset `j % block_size`. -/
theorem read_inode_run_direct (ctx : FsCtx) (inode : Ext2Inode)
    (hbs : 0 < ctx.block_size)
    (hlen15 : inode.block.length = 15)
    (hsize : inode.size < 12 * ctx.block_size)
    (hchain : ∀ k, k * ctx.block_size < inode.size → inode.block.getD k 0 ≠ 0) :
    (read_inode_run ctx inode).2 = inode.size ∧
    ∀ j, j < inode.size →
      (read_inode_run ctx inode).1 j =
        blockByte ctx (inode.block.getD (j / ctx.block_size) 0)
          (j % ctx.block_size) := by
  have htlen : (inode.block.take 12).length = 12 := by
    rw [List.length_take, hlen15]
    decide
  obtain ⟨d1, d2, -⟩ := fillFromBlocks_direct ctx inode.size hbs
    (inode.block.take 12) (fun _ => 0) 0 (Nat.zero_le _)
    (by rw [htlen]; omega)
    (by
      intro k hk
      have hk12 : k < 12 := by
        by_contra hc
        push_neg at hc
        have : 12 * ctx.block_size ≤ k * ctx.block_size :=
          Nat.mul_le_mul_right _ hc
        omega
      rw [getD_take _ _ _ hk12]
      exact hchain k (by simpa using hk))
  unfold read_inode_run
  dsimp only
  have hc2 : ¬((fillFromBlocks ctx inode.size (inode.block.take 12)
      (fun _ => 0) 0).2 < inode.size ∧ inode.block.getD 12 0 ≠ 0) := by
    rw [d1]
    simp
  have hc3 : ¬((fillFromBlocks ctx inode.size (inode.block.take 12)
      (fun _ => 0) 0).2 < inode.size ∧ inode.block.getD 13 0 ≠ 0) := by
    rw [d1]
    simp
  rw [if_neg hc2, if_neg hc3]
  refine ⟨d1, ?_⟩
  intro j hj
  have hd := d2 j (Nat.zero_le _) hj
  rw [Nat.sub_zero] at hd
  rw [getD_take _ _ _ (by
    rw [Nat.div_lt_iff_lt_mul hbs]
    omega)] at hd
  exact hd

end ext

/-- C2 (amended): `read_inode_data` rejects a read as unsupported
(triple-indirect territory) exactly when the declared size is within the
1 MiB cap but the direct, single- and double-indirect chains supply fewer
bytes (declared sizes above the cap are rejected earlier with the
ResourceExhausted "File too large" error); a successful `read_inode_data`
always reports exactly the declared size, and a successful `read_file`
returns a buffer whose logical length equals the resolved inode's declared
size — never truncated data. -/
theorem claim_C2 (ctx : ext.FsCtx) (inode : ext.Ext2Inode) :
    (inode.size ≤ ext.MAX_FILE_SIZE → ext.suppliedBytes ctx inode < inode.size →
       ext.read_inode_data ctx inode =
         .error "Large files not fully supported (needs triple indirect)") ∧
    (∀ buf, ext.read_inode_data ctx inode = .ok buf → buf.size = inode.size) ∧
    (∀ path buf, ext.read_file ctx path = .ok buf →
       ∃ n ino, ext.resolve_path ctx path = .ok n ∧
         ext.get_inode ctx n = .ok ino ∧ buf.size = ino.size) := by
  refine ⟨?_, fun buf h => ext.read_inode_data_size ctx inode buf h, ?_⟩
  · intro hmax hsup
    unfold ext.suppliedBytes at hsup
    unfold ext.read_inode_data
    dsimp only
    rw [if_neg (by omega), if_pos hsup]
  · intro path buf hok
    unfold ext.read_file at hok
    split at hok
    · exact absurd hok (by simp)
    · rename_i n hres
      split at hok
      · exact absurd hok (by simp)
      · rename_i inode2 hino
        split at hok
        · exact absurd hok (by simp)
        · exact ⟨n, inode2, hres, hino,
            ext.read_inode_data_size ctx inode2 buf hok⟩

/-- C2 counterexample: an inode declaring 2 MiB with every block pointer
zero has chains supplying 0 bytes — far short of its declared size — yet
`read_inode_data` reports the ResourceExhausted-classified "File too
large" error (the 1 MiB cap fires first), not the Unsupported
triple-indirect error the claim requires for every inode whose size
exceeds its chains. -/
theorem claim_C2_counterexample :
    bigInode.size > 0 ∧ ext.suppliedBytes dirCtx bigInode = 0 ∧
    ext.read_inode_data dirCtx bigInode = .error "File too large" := by
  refine ⟨by decide, by decide, ?_⟩
  unfold ext.read_inode_data
  rw [if_pos (by decide)]

/-- C2 witness: a 100-byte inode with all-zero pointers (chains supply 0
bytes) is rejected with the Unsupported triple-indirect error. -/
theorem claim_C2_witness :
    ext.read_inode_data dirCtx sparseInode =
      .error "Large files not fully supported (needs triple indirect)" :=
  (claim_C2 dirCtx sparseInode).1 (by decide) (by decide)

/-- C3: on any filesystem context, if a path resolves to an inode with the
regular-file bit whose declared size fits in its direct blocks
(`size < 12 * block_size`) and every direct block needed for the size is a
nonzero pointer (well-formed chain), then `read_file` succeeds with a
buffer whose logical length is exactly the inode's declared size (not the
1 MiB capacity) and whose bytes are exactly the file's data-block bytes up
to that size. -/
theorem claim_C3 (ctx : ext.FsCtx) (path : List Nat) (n : Nat)
    (inode : ext.Ext2Inode)
    (hbs : 0 < ctx.block_size) (hbs4 : ctx.block_size ≤ 4096)
    (hres : ext.resolve_path ctx path = .ok n)
    (hino : ext.get_inode ctx n = .ok inode)
    (hreg : ¬inode.mode &&& ext.EXT2_S_IFREG = 0)
    (hsize : inode.size < 12 * ctx.block_size)
    (hchain : ∀ k, k * ctx.block_size < inode.size → inode.block.getD k 0 ≠ 0) :
    (ext.read_file ctx path).isOk = true ∧
    ∀ buf, ext.read_file ctx path = .ok buf →
      buf.size = inode.size ∧
      ∀ j, j < inode.size →
        buf.data j =
          ctx.disk (inode.block.getD (j / ctx.block_size) 0)
            (j % ctx.block_size) := by
  obtain ⟨r1, r2⟩ := ext.read_inode_run_direct ctx inode hbs
    (ext.get_inode_block_length ctx n inode hino) hsize hchain
  have hdata : ext.read_inode_data ctx inode =
      .ok ⟨(ext.read_inode_run ctx inode).1, (ext.read_inode_run ctx inode).2⟩ := by
    unfold ext.read_inode_data
    dsimp only
    rw [if_neg (by
        have hmax : ext.MAX_FILE_SIZE = 1048576 := rfl
        omega),
      if_neg (by omega)]
  have hread : ext.read_file ctx path = ext.read_inode_data ctx inode := by
    simp only [ext.read_file, hres, hino]
    rw [if_neg hreg]
  constructor
  · rw [hread, hdata]
    rfl
  · intro buf hbuf
    rw [hread, hdata] at hbuf
    have hb := Except.ok.inj hbuf
    rw [← hb]
    refine ⟨r1, ?_⟩
    intro j hj
    show (ext.read_inode_run ctx inode).1 j = _
    rw [r2 j hj, ext.blockByte_lt _ _ _ (Nat.mod_lt _ hbs)]

/-- C3 witness: on the concrete one-file filesystem, reading "/a"
succeeds. -/
theorem claim_C3_witness : (ext.read_file fileCtx [47, 97]).isOk = true := by
  have hroot : ext.get_inode fileCtx 2 = .ok rootDirInode := by decide
  have hfile : ext.get_inode fileCtx 3 = .ok fileInode := by decide
  have hscan : ext.scanEntries fileCtx 9 [97] 0 = some 3 := by
    have hr1 : List.range 1 = [0] := rfl
    rw [ext.scanEntries]
    norm_num [le32f, le16f, ext.blockByte, fileCtx, fileDisk, hr1]
  have hsd : ext.scanDirect fileCtx [97] [9, 0, 0, 0, 0, 0, 0, 0, 0, 0, 0, 0] = some 3 := by
    rw [ext.scanDirect, if_neg (by norm_num), hscan]
  have hfind : ext.find_file_in_directory fileCtx rootDirInode [97] = .ok 3 := by
    unfold ext.find_file_in_directory
    rw [show rootDirInode.block.take 12 = [9, 0, 0, 0, 0, 0, 0, 0, 0, 0, 0, 0] from by decide,
      hsd]
  have hres : ext.resolve_path fileCtx [47, 97] = .ok 3 := by
    unfold ext.resolve_path
    rw [ext.resolveLoop]
    norm_num
    rw [ext.resolveLoop]
    norm_num [hroot, hfind]
    rw [ext.resolveLoop]
    norm_num
  exact (claim_C3 fileCtx [47, 97] 3 fileInode (by decide) (by decide) hres hfile
    (by decide) (by decide)
    (by
      intro k hk
      have hb : fileCtx.block_size = 1024 := rfl
      have hs : fileInode.size = 5 := rfl
      rw [hb, hs] at hk
      have hk0 : k = 0 := by omega
      subst hk0
      decide)).1

/-- C10: `read_file` succeeds only when the inode that the final path
component resolves to carries the regular-file mode bit 0x8000; whenever
resolution and inode fetch succeed but that bit is absent (a directory,
for instance), `read_file` fails with "Not a regular file". -/
theorem claim_C10 (ctx : ext.FsCtx) (path : List Nat) :
    (∀ buf, ext.read_file ctx path = .ok buf →
       ∃ n inode, ext.resolve_path ctx path = .ok n ∧
         ext.get_inode ctx n = .ok inode ∧
         ¬inode.mode &&& ext.EXT2_S_IFREG = 0) ∧
    (∀ n inode, ext.resolve_path ctx path = .ok n →
       ext.get_inode ctx n = .ok inode →
       inode.mode &&& ext.EXT2_S_IFREG = 0 →
       ext.read_file ctx path = .error "Not a regular file") := by
  constructor
  · intro buf hok
    unfold ext.read_file at hok
    split at hok
    · exact absurd hok (by simp)
    · rename_i n hres
      split at hok
      · exact absurd hok (by simp)
      · rename_i inode hino
        split at hok
        · exact absurd hok (by simp)
        · rename_i hmode
          exact ⟨n, inode, hres, hino, hmode⟩
  · intro n inode hres hino hmode
    simp only [ext.read_file, hres, hino]
    rw [if_pos hmode]

/-- C10 witness: on the directory-only filesystem, "/" resolves to the
root directory inode, and `read_file` rejects it as not a regular file. -/
theorem claim_C10_witness :
    ext.read_file dirCtx [47] = .error "Not a regular file" := by
  have hres : ext.resolve_path dirCtx [47] = .ok 2 := by
    unfold ext.resolve_path
    rw [ext.resolveLoop]
    norm_num
    rw [ext.resolveLoop]
    norm_num
  exact (claim_C10 dirCtx [47]).2 2 rootInode hres (by decide) (by decide)

end RustyBoot
